import Mathlib

/-!
Verification of the commit-message generation pipeline of the `gcli`
command-line tool (`src/gcli/main.py`).

Strings are modelled as `List Char` (`Str`). Python's string methods used by
the program are embedded explicitly: `str.lower`, `str.strip()` (whitespace),
`str.strip('"\x27\x60')` (quote characters), `str.split('\n')`,
`str.split(':')[0]`, `str.startswith`, and the substring test `in`.
Each program function is translated from the Python source, keeping its name.
-/

/-- Strings of the embedded program: Python strings as lists of characters. -/
abbrev Str := List Char

/-- Coerce a Lean string literal into the embedded string type. -/
def str (s : String) : Str := s.data

/-- Whitespace recognized by Python `str.strip()` (ASCII range). -/
def isWsChar (c : Char) : Bool :=
  c.toNat = 32 || c.toNat = 9 || c.toNat = 10 || c.toNat = 13 || c.toNat = 11 || c.toNat = 12

/-- Quote characters stripped by the program: double quote, apostrophe, backtick
(`.strip('"\x27\x60')` in the source, main.py line 189). -/
def isQuoteChar (c : Char) : Bool :=
  c.toNat = 34 || c.toNat = 39 || c.toNat = 96

/-- Drop the longest run of characters satisfying `p` from the end. -/
def stripEnd (p : Char → Bool) (s : Str) : Str := (s.reverse.dropWhile p).reverse

/-- Python `str.strip(chars)`: drop characters satisfying `p` from both ends. -/
def pyStripWith (p : Char → Bool) (s : Str) : Str := stripEnd p (s.dropWhile p)

/-- Python `str.strip()`: strip surrounding whitespace. -/
def pyStrip (s : Str) : Str := pyStripWith isWsChar s

/-- Python `.strip('"\x27\x60')`: strip surrounding quote characters. -/
def stripQuotes (s : Str) : Str := pyStripWith isQuoteChar s

/-- Python `str.lower()` (ASCII case folding, as used by the program). -/
def lowerS (s : Str) : Str := s.map Char.toLower

/-- Python substring test `needle in hay`. -/
def containsS (needle : Str) : Str → Bool
  | [] => needle.isEmpty
  | c :: cs => needle.isPrefixOf (c :: cs) || containsS needle cs

/-- Python `hay.startswith(needle)`. -/
def startsWithS (needle hay : Str) : Bool := needle.isPrefixOf hay

/-- Python `s.split('\n')`. -/
def splitNl : Str → List Str
  | [] => [[]]
  | c :: cs =>
    if c = '\n' then [] :: splitNl cs
    else
      match splitNl cs with
      | [] => [[c]]
      | l :: ls => (c :: l) :: ls

/-- Python `s.split(':')[0]` (also `s.split(':', 1)[0]`): the text before the
first colon, the whole string when there is none. -/
def takeUntilColon (s : Str) : Str := s.takeWhile (fun c => !(c == ':'))

/-! ## Local Inference Client: model selection (main.py lines 142-152) -/

/-- Model selection of `generate_with_ollama` (main.py lines 142-152): keep the
configured preferred model when `model.startswith(m.split(':')[0])` holds for
some available model `m`; otherwise use the first available model; with no
available models, return `none` (the code prints a diagnostic and returns
`None`, so no generation call is attempted). -/
def selectModel (preferred : Str) (available : List Str) : Option Str :=
  if !(available.any fun m => startsWithS (takeUntilColon m) preferred) then
    match available with
    | [] => none
    | m0 :: _ => some m0
  else some preferred

/-! ## Local Inference Client: output validation (main.py lines 181-198) -/

/-- Valid conventional-commit types (main.py line 185). -/
def valid_types : List Str :=
  [str "feat", str "fix", str "docs", str "style", str "refactor", str "test", str "chore"]

/-- Per-line cleaning (main.py line 189): `line.strip().strip('"\x27\x60')`. -/
def cleanLine (line : Str) : Str := stripQuotes (pyStrip line)

/-- Acceptance test applied to a cleaned line (main.py lines 191-195): it must
contain a colon, its prefix before the colon must lower-case to a valid type,
and its total length must be at most 72. -/
def validLine (cl : Str) : Bool :=
  containsS (str ":") cl && valid_types.contains (lowerS (takeUntilColon cl)) &&
    decide (cl.length ≤ 72)

/-- Loop of main.py lines 188-195: return the first cleaned line accepted by
`validLine`. -/
def findValidLine : List Str → Option Str
  | [] => none
  | line :: rest =>
    let cl := cleanLine line
    if validLine cl then some cl else findValidLine rest

/-- Output validation of `generate_with_ollama` (main.py lines 183-198):
`generated_text = response.strip()`; if non-empty, scan its lines for the first
valid cleaned line; otherwise (or when no line qualifies) report no valid
message (`None`). -/
def extractCommitMessage (response : Str) : Option Str :=
  let generated_text := pyStrip response
  if generated_text = [] then none
  else findValidLine (splitNl generated_text)

/-! ## Heuristic Classifier (main.py lines 205-254) -/

/-- Signal contributed by one (lowered) diff line in the scanning loop of
`generate_fallback_message` (main.py lines 214-226). The loop is an
`if`/`elif` chain, so each line contributes at most the first matching rule;
the markdown/readme and dependency-manifest rules test the whole diff text
`git_diff`, not the line. -/
def lineSignal (git_diff : Str) (line : Str) : Option Str :=
  if (containsS (str "def ") line || containsS (str "class ") line) &&
      startsWithS (str "+") line then some (str "feat")
  else if containsS (str "fix") line || containsS (str "bug") line then some (str "fix")
  else if containsS (str "import") line && startsWithS (str "+") line then some (str "feat")
  else if containsS (str "test") line then some (str "test")
  else if containsS (str ".md") git_diff || containsS (str "readme") (lowerS git_diff) then
    some (str "docs")
  else if containsS (str "requirements") (lowerS git_diff) ||
      containsS (str "package") (lowerS git_diff) then some (str "chore")
  else none

/-- Accumulated `change_types` set of `generate_fallback_message`
(main.py lines 212-226); only membership in the set is ever used. -/
def change_types (git_diff : Str) : List Str :=
  (splitNl (lowerS git_diff)).filterMap (lineSignal git_diff)

/-- Count of added lines (main.py line 209). -/
def added_lines (git_diff : Str) : Nat :=
  ((splitNl (lowerS git_diff)).filter
    (fun l => startsWithS (str "+") l && !startsWithS (str "+++") l)).length

/-- Count of removed lines (main.py line 210). -/
def removed_lines (git_diff : Str) : Nat :=
  ((splitNl (lowerS git_diff)).filter
    (fun l => startsWithS (str "-") l && !startsWithS (str "---") l)).length

/-- Priority resolution of the accumulated type set (main.py lines 228-239). -/
def resolveCommitType (git_diff : Str) : Str :=
  let cts := change_types git_diff
  if cts.contains (str "feat") then str "feat"
  else if cts.contains (str "fix") then str "fix"
  else if cts.contains (str "test") then str "test"
  else if cts.contains (str "docs") then str "docs"
  else if cts.contains (str "chore") then str "chore"
  else str "chore"

/-- Heuristic classifier `generate_fallback_message` (main.py lines 205-254).
The Python body performs no fallible operation, so the `except` branch
returning "chore: update codebase" is unreachable and the translation is the
`try` body. -/
def generate_fallback_message (git_diff : Str) : Str :=
  let added := added_lines git_diff
  let removed := removed_lines git_diff
  let commit_type := resolveCommitType git_diff
  if containsS (str "openai") (lowerS git_diff) then
    str "feat: add AI-powered commit message generation"
  else if containsS (str "requirements") (lowerS git_diff) then
    str "chore: update dependencies"
  else if containsS (str "main.py") git_diff && decide (added > 50) then
    str "feat: implement major functionality updates"
  else if decide (added > removed * 2) then
    commit_type ++ str ": add new features and functionality"
  else if decide (removed > added * 2) then
    commit_type ++ str ": remove deprecated code"
  else commit_type ++ str ": update and improve codebase"

/-! ## Generation Orchestrator (main.py lines 107-117) -/

/-- Orchestrator `generate_commit_message` (main.py lines 107-117). The inference
attempt is abstracted as its result `ollamaResult` (`generate_with_ollama`
returns `None` on every failure and never raises, its body being wrapped in a
catch-all `try`). Python's truthiness test `if result:` keeps the inference
message only when it is a non-empty string; otherwise the heuristic classifier
runs on the same diff. -/
def generate_commit_message (ollamaResult : Option Str) (git_diff : Str) : Str :=
  match ollamaResult with
  | some result => if result ≠ [] then result else generate_fallback_message git_diff
  | none => generate_fallback_message git_diff

/-- Caller-side test `if not generated_message:` of main.py line 709, guarding
the `"Failed to generate commit message"` exit-1 branch. -/
def commitMessageFailed (msg : Str) : Bool := msg.isEmpty

/-! ## Diff Extractor (main.py lines 86-105) and the auto-commit entry
(main.py lines 701-711) -/

/-- Results of the git subprocess invocations made by `get_git_diff`; each
`subprocess.run` call is modelled by its return code and captured stdout.
A return code of 0 means success; `git` exits non-zero (e.g. 128) in a
directory that is not a repository. -/
structure GitEnv where
  /-- Return code of `git diff --staged --quiet`. -/
  stagedQuietRc : Nat
  /-- Return code of `git diff`. -/
  diffRc : Nat
  /-- Stdout of `git diff`. -/
  diffOut : Str
  /-- Return code of `git diff HEAD~1`. -/
  headRc : Nat
  /-- Stdout of `git diff HEAD~1`. -/
  headOut : Str
  /-- Return code of `git diff --staged`. -/
  stagedRc : Nat
  /-- Stdout of `git diff --staged`. -/
  stagedOut : Str

/-- Diff extractor `get_git_diff` (main.py lines 86-105). `subprocess.run`
without `check=True` never raises `CalledProcessError`, so the `except` branch
of the source is unreachable and every command failure flows into the `None`
result. -/
def get_git_diff (e : GitEnv) : Option Str :=
  if e.stagedQuietRc = 0 then
    if e.diffRc = 0 && !(pyStrip e.diffOut).isEmpty then some e.diffOut
    else if e.headRc = 0 && !(pyStrip e.headOut).isEmpty then some e.headOut
    else none
  else
    if e.stagedRc = 0 && !(pyStrip e.stagedOut).isEmpty then some e.stagedOut
    else none

/-- Outcome of the diff-extraction step of the `commit --auto` path
(main.py lines 703-706). -/
inductive AutoStep where
  /-- The code prints "No changes detected to commit." and calls `sys.exit(0)`. -/
  | exitZeroNoChanges : AutoStep
  /-- The code proceeds to generate a commit message for this diff. -/
  | generateFor (diff : Str) : AutoStep
deriving DecidableEq

/-- Auto-commit entry (main.py lines 703-706): a falsy diff result (`None` or
empty) exits 0 with an informational message, otherwise generation proceeds. -/
def mainAutoDiff (e : GitEnv) : AutoStep :=
  match get_git_diff e with
  | none => .exitZeroNoChanges
  | some d => if d = [] then .exitZeroNoChanges else .generateFor d

/-- Git environment of a directory that is not a git repository: every `git
diff` invocation fails with exit code 128 and empty stdout. -/
def notARepoEnv : GitEnv :=
  { stagedQuietRc := 128, diffRc := 128, diffOut := [], headRc := 128, headOut := [],
    stagedRc := 128, stagedOut := [] }

/-! ## Interactive Confirmation (main.py lines 715-724) -/

/-- Helper for the validation lemmas: scan a list of lines, returning the first
cleaned line accepted by `validLine`, expressed with `List.find?`. -/
def scanLines (ls : List Str) : Option Str := (ls.map cleanLine).find? validLine

/-- Decision taken after the operator answers the confirmation prompt. -/
inductive ConfirmOutcome where
  /-- The code prints "Commit cancelled" and calls `sys.exit(1)`. -/
  | abort : ConfirmOutcome
  /-- The code proceeds to commit with this message. -/
  | commitWith (msg : Str) : ConfirmOutcome
deriving DecidableEq

/-- Interactive confirmation (main.py lines 715-724): the response is stripped
and lowered; `"n"` aborts; `"edit"` prompts for a replacement whose stripped
text is used unless empty, in which case the generated message is kept; any
other response accepts the generated message. -/
def confirmStep (generated response editReply : Str) : ConfirmOutcome :=
  let confirm := lowerS (pyStrip response)
  if confirm = str "n" then .abort
  else if confirm = str "edit" then
    let message := pyStrip editReply
    if message = [] then .commitWith generated else .commitWith message
  else .commitWith generated

/-! ## Definitions following the claims' words, for refinement comparison.
Each is kept clearly separate from the source-translated definitions above. -/

/-- Model selection as the words of claim C1 state it: the preferred model is
used iff its base name (text before the colon separator) equals the base name
of some available model; otherwise the first available model; with an empty
list, no model. -/
def claimSelectModel (preferred : Str) (available : List Str) : Option Str :=
  if available.any fun m => takeUntilColon preferred == takeUntilColon m then some preferred
  else
    match available with
    | [] => none
    | m0 :: _ => some m0

/-- Claim C2's feat signal, read as an independent rule: some (lowered) line is
an added line containing a function/class-definition keyword, or an added line
containing an import statement. -/
def claimHasFeat (gd : Str) : Bool :=
  (splitNl (lowerS gd)).any fun l =>
    ((containsS (str "def ") l || containsS (str "class ") l) && startsWithS (str "+") l) ||
      (containsS (str "import") l && startsWithS (str "+") l)

/-- Claim C2's fix signal: some line mentions "fix" or "bug". -/
def claimHasFix (gd : Str) : Bool :=
  (splitNl (lowerS gd)).any fun l => containsS (str "fix") l || containsS (str "bug") l

/-- Claim C2's test signal: some line mentions "test". -/
def claimHasTest (gd : Str) : Bool :=
  (splitNl (lowerS gd)).any fun l => containsS (str "test") l

/-- Claim C2's docs signal: a markdown/readme mention anywhere in the diff. -/
def claimHasDocs (gd : Str) : Bool :=
  containsS (str ".md") gd || containsS (str "readme") (lowerS gd)

/-- Claim C2's chore signal: a dependency-manifest mention anywhere. -/
def claimHasChore (gd : Str) : Bool :=
  containsS (str "requirements") (lowerS gd) || containsS (str "package") (lowerS gd)

/-- Resolved type as the words of claim C2 state it: independent accumulation
of the candidate signals, resolved by the priority feat > fix > test > docs >
chore with default chore. -/
def claimResolvedType (gd : Str) : Str :=
  if claimHasFeat gd then str "feat"
  else if claimHasFix gd then str "fix"
  else if claimHasTest gd then str "test"
  else if claimHasDocs gd then str "docs"
  else if claimHasChore gd then str "chore"
  else str "chore"

/-- Rule table of the amended claim C2: ordered (emitted type, predicate)
pairs; a line contributes only the first rule it matches. The docs and chore
rules test the whole diff, so they fire only on lines matching no earlier
rule. -/
def claimRuleTable (gd : Str) : List (Str × (Str → Bool)) :=
  [ (str "feat", fun l => (containsS (str "def ") l || containsS (str "class ") l) &&
      startsWithS (str "+") l),
    (str "fix", fun l => containsS (str "fix") l || containsS (str "bug") l),
    (str "feat", fun l => containsS (str "import") l && startsWithS (str "+") l),
    (str "test", fun l => containsS (str "test") l),
    (str "docs", fun _ => containsS (str ".md") gd || containsS (str "readme") (lowerS gd)),
    (str "chore", fun _ => containsS (str "requirements") (lowerS gd) ||
      containsS (str "package") (lowerS gd)) ]

/-- First matching rule of the amended claim C2's rule table for one line. -/
def claimFirstSignal (gd : Str) (l : Str) : Option Str :=
  ((claimRuleTable gd).find? fun r => r.2 l).map fun r => r.1

/-- Membership of a type in the accumulated candidate set of the amended
claim C2: some line's first matching rule emits it. -/
def claimAccumType (gd : Str) (t : Str) : Bool :=
  (splitNl (lowerS gd)).any fun l => claimFirstSignal gd l == some t

/-- Resolved type as the amended claim C2 states it. -/
def claimAmendedType (gd : Str) : Str :=
  if claimAccumType gd (str "feat") then str "feat"
  else if claimAccumType gd (str "fix") then str "fix"
  else if claimAccumType gd (str "test") then str "test"
  else if claimAccumType gd (str "docs") then str "docs"
  else if claimAccumType gd (str "chore") then str "chore"
  else str "chore"

/-- Validation as the words of claim C7 state it: split the raw output into
lines, clean each line, and accept the first cleaned line passing the
colon/type/length test. -/
def claimValidate (raw : Str) : Option Str := ((splitNl raw).map cleanLine).find? validLine

/-- Helper for the `splitNl` lemmas: append a character to the last line of a
non-empty line list (an empty list is treated as one empty line). -/
def appendLast (c : Char) : List Str → List Str
  | [] => [[c]]
  | [l] => [l ++ [c]]
  | l :: ls => l :: appendLast c ls

/-! ## Helper lemmas -/

/-- Characters of `takeUntilColon s` are not colons. -/
lemma takeUntilColon_no_colon (s : Str) : ∀ c ∈ takeUntilColon s, (c == ':') = false := by
  intro c hc
  have h := List.mem_takeWhile_imp hc
  simpa using h

/-- A prefix whose characters all satisfy `q` is also a prefix of the
`takeWhile q` part. -/
lemma prefix_takeWhile_aux {q : Char → Bool} :
    ∀ x p : Str, (∀ c ∈ x, q c = true) → x <+: p → x <+: p.takeWhile q := by
  intro x
  induction x with
  | nil => intro p _ _; exact List.nil_prefix
  | cons a x' ih =>
    intro p hq hpre
    cases p with
    | nil => simp at hpre
    | cons b p' =>
      rw [List.cons_prefix_cons] at hpre
      obtain ⟨rfl, h2⟩ := hpre
      rw [List.takeWhile_cons_of_pos (hq a (by simp))]
      rw [List.cons_prefix_cons]
      exact ⟨rfl, ih p' (fun c hc => hq c (by simp [hc])) h2⟩

/-- A colon-free string is a prefix of `p` iff it is a prefix of the part of
`p` before its first colon. -/
lemma isPrefixOf_takeUntilColon_right (x p : Str) (hx : ∀ c ∈ x, (c == ':') = false) :
    x.isPrefixOf p = x.isPrefixOf (takeUntilColon p) := by
  rw [Bool.eq_iff_iff, List.isPrefixOf_iff_prefix, List.isPrefixOf_iff_prefix]
  constructor
  · intro h
    exact prefix_takeWhile_aux x p (fun c hc => by simp [hx c hc]) h
  · intro h
    exact h.trans ⟨p.dropWhile (fun c => !(c == ':')), List.takeWhile_append_dropWhile _ p⟩

/-- Packaging of the five possible results of `resolveCommitType`. -/
lemma resolveCommitType_cases (gd : Str) :
    resolveCommitType gd = str "feat" ∨ resolveCommitType gd = str "fix" ∨
    resolveCommitType gd = str "test" ∨ resolveCommitType gd = str "docs" ∨
    resolveCommitType gd = str "chore" := by
  simp only [resolveCommitType]
  split_ifs <;> simp

/-- The resolved commit type is always one of the seven valid types. -/
lemma resolveCommitType_valid (gd : Str) :
    ∃ t, resolveCommitType gd = t ∧ t ∈ valid_types := by
  rcases resolveCommitType_cases gd with h | h | h | h | h <;> exact ⟨_, h, by decide⟩

/-- Appending helper for the `type: description` shape. -/
lemma append_colon_shape (t a b : Str) (hab : a = str ": " ++ b) :
    t ++ a = t ++ str ": " ++ b := by
  rw [hab, List.append_assoc]

/-- Every heuristic classifier result has the shape `type: description` with a
valid type and non-empty description. -/
lemma generate_fallback_message_shape (s : Str) :
    ∃ t d, t ∈ valid_types ∧ d ≠ [] ∧ generate_fallback_message s = t ++ str ": " ++ d := by
  obtain ⟨t, ht, hts⟩ := resolveCommitType_valid s
  simp only [generate_fallback_message]
  split_ifs
  · exact ⟨str "feat", str "add AI-powered commit message generation", by decide, by decide,
      by decide⟩
  · exact ⟨str "chore", str "update dependencies", by decide, by decide, by decide⟩
  · exact ⟨str "feat", str "implement major functionality updates", by decide, by decide,
      by decide⟩
  · exact ⟨t, str "add new features and functionality", hts, by decide,
      by rw [ht]; exact append_colon_shape t _ _ (by decide)⟩
  · exact ⟨t, str "remove deprecated code", hts, by decide,
      by rw [ht]; exact append_colon_shape t _ _ (by decide)⟩
  · exact ⟨t, str "update and improve codebase", hts, by decide,
      by rw [ht]; exact append_colon_shape t _ _ (by decide)⟩

/-- The heuristic classifier never returns the empty string. -/
lemma generate_fallback_message_ne_nil (s : Str) : generate_fallback_message s ≠ [] := by
  obtain ⟨t, d, _, _, heq⟩ := generate_fallback_message_shape s
  rw [heq]
  have h2 : str ": " ≠ ([] : Str) := by decide
  simp [List.append_eq_nil, h2]

/-! ## Claim theorems -/

/-- Claim C1, counterexample: with preferred model "ab" and available models
["a:x"], the code keeps the preferred model for the generation call although
the base names "ab" and "a" differ (the code tests whether the full preferred
name starts with an available model's base name); the claim's selection rule
would fall back to the first available model instead. -/
theorem c1_counterexample :
    selectModel (str "ab") [str "a:x"] = some (str "ab") ∧
    takeUntilColon (str "ab") ≠ takeUntilColon (str "a:x") ∧
    claimSelectModel (str "ab") [str "a:x"] = some (str "a:x") := by decide

/-- Claim C1 as amended: the preferred model is used for the generation call
iff the base name of some available model is a prefix of the preferred model's
base name; otherwise the first available model is used; and with an empty
available list no model is selected (no generation call is attempted). -/
theorem c1_model_selection_amended (preferred : Str) (available : List Str) :
    selectModel preferred available =
      if available.any fun m => startsWithS (takeUntilColon m) (takeUntilColon preferred)
      then some preferred else available.head? := by
  have hcong : (available.any fun m => startsWithS (takeUntilColon m) preferred) =
      (available.any fun m => startsWithS (takeUntilColon m) (takeUntilColon preferred)) := by
    induction available with
    | nil => rfl
    | cons m ms ih =>
      simp only [List.any_cons, ih]
      have h := isPrefixOf_takeUntilColon_right (takeUntilColon m) preferred
        (takeUntilColon_no_colon m)
      simp only [startsWithS, h]
  unfold selectModel
  rw [hcong]
  cases h : (available.any fun m => startsWithS (takeUntilColon m) (takeUntilColon preferred)) <;>
    cases available <;> simp

/-- Claim C4: the code, run where every git diff command fails (e.g. outside a
git repository), folds the failure into the `None` diff result, so the commit
operation prints "No changes detected to commit." and exits 0 instead of
surfacing the command failure with a non-zero exit status. -/
theorem c4_missing_repo_exits_zero :
    get_git_diff notARepoEnv = none ∧
    mainAutoDiff notARepoEnv = AutoStep.exitZeroNoChanges := by decide

/-- Claim C5: the orchestrator returns exactly one of the two sources — the
inference client's (non-empty) validated message when inference succeeds,
otherwise the heuristic classifier's result on the same diff. -/
theorem c5_orchestrator_exclusive (res : Option Str) (d : Str) :
    (∀ r, res = some r → r ≠ [] → generate_commit_message res d = r) ∧
    (res = none → generate_commit_message res d = generate_fallback_message d) ∧
    (res = some [] → generate_commit_message res d = generate_fallback_message d) := by
  refine ⟨?_, ?_, ?_⟩
  · rintro r rfl hr
    simp [generate_commit_message, hr]
  · rintro rfl
    rfl
  · rintro rfl
    simp [generate_commit_message]

/-- Claim C6: for every input string, the heuristic classifier returns a
non-empty string of the shape `type: description` whose type is one of the
seven enumerated types (the total Lean translation witnesses that the Python
body cannot raise). -/
theorem c6_classifier_total_shape (s : Str) :
    generate_fallback_message s ≠ [] ∧
    ∃ t d, t ∈ valid_types ∧ d ≠ [] ∧ generate_fallback_message s = t ++ str ": " ++ d :=
  ⟨generate_fallback_message_ne_nil s, generate_fallback_message_shape s⟩

/-- Claim C9: the orchestrator always returns a non-empty message, hence the
caller's `"Failed to generate commit message"` exit-1 branch is unreachable
for every diff and every inference outcome. -/
theorem c9_nonempty_message (res : Option Str) (d : Str) :
    commitMessageFailed (generate_commit_message res d) = false := by
  have hfb := generate_fallback_message_ne_nil d
  unfold commitMessageFailed generate_commit_message
  cases res with
  | none => simpa [List.isEmpty_iff] using hfb
  | some r =>
    by_cases hr : r = []
    · subst hr
      simpa [List.isEmpty_iff] using hfb
    · simp [hr, List.isEmpty_iff]

/-- Claim C10: interactive confirmation aborts exactly when the trimmed,
lowercased response is "n"; the edit path is taken exactly on "edit", where an
empty trimmed replacement reverts to the generated message; every other
response — including the empty line and "no" — commits the generated message
unchanged. -/
theorem c10_confirmation_semantics (g r e : Str) :
    (confirmStep g r e = ConfirmOutcome.abort ↔ lowerS (pyStrip r) = str "n") ∧
    (lowerS (pyStrip r) = str "edit" →
      confirmStep g r e = ConfirmOutcome.commitWith (if pyStrip e = [] then g else pyStrip e)) ∧
    (lowerS (pyStrip r) ≠ str "n" → lowerS (pyStrip r) ≠ str "edit" →
      confirmStep g r e = ConfirmOutcome.commitWith g) ∧
    confirmStep g (str "no") e = ConfirmOutcome.commitWith g ∧
    confirmStep g (str "") e = ConfirmOutcome.commitWith g := by
  refine ⟨?_, ?_, ?_, ?_, ?_⟩
  · simp only [confirmStep]
    by_cases h1 : lowerS (pyStrip r) = str "n"
    · simp [h1]
    · by_cases h2 : lowerS (pyStrip r) = str "edit"
      · simp only [if_neg h1, if_pos h2]
        constructor
        · intro hc
          by_cases he : pyStrip e = [] <;> simp [he] at hc
        · intro hc
          exact absurd hc h1
      · simp [h1, h2]
  · intro h2
    have h1 : lowerS (pyStrip r) ≠ str "n" := by
      rw [h2]
      decide
    simp only [confirmStep, if_neg h1, if_pos h2]
    by_cases he : pyStrip e = [] <;> simp [he]
  · intro h1 h2
    simp [confirmStep, if_neg h1, if_neg h2]
  · have hno : lowerS (pyStrip (str "no")) = str "no" := by decide
    simp only [confirmStep, hno]
    rw [if_neg (by decide), if_neg (by decide)]
  · have hemp : lowerS (pyStrip (str "")) = str "" := by decide
    simp only [confirmStep, hemp]
    rw [if_neg (by decide), if_neg (by decide)]

/-- Membership in a `filterMap` image, as a Boolean: some element maps to the
target. -/
lemma contains_filterMap (f : Str → Option Str) (b : Str) (l : List Str) :
    (l.filterMap f).contains b = l.any fun a => f a == some b := by
  rw [Bool.eq_iff_iff, List.any_eq_true]
  unfold List.contains
  rw [List.elem_iff, List.mem_filterMap]
  constructor
  · rintro ⟨a, ha, hfa⟩
    exact ⟨a, ha, by rw [hfa]; simp⟩
  · rintro ⟨a, ha, hfa⟩
    exact ⟨a, ha, by simpa using hfa⟩

/-- The amended claim C2's rule table computes exactly the per-line signal of
the source's `if`/`elif` chain. -/
lemma claimFirstSignal_eq (gd l : Str) : claimFirstSignal gd l = lineSignal gd l := by
  unfold claimFirstSignal claimRuleTable lineSignal
  cases h1 : (containsS (str "def ") l || containsS (str "class ") l) &&
      startsWithS (str "+") l <;>
  cases h2 : containsS (str "fix") l || containsS (str "bug") l <;>
  cases h3 : containsS (str "import") l && startsWithS (str "+") l <;>
  cases h4 : containsS (str "test") l <;>
  cases h5 : containsS (str ".md") gd || containsS (str "readme") (lowerS gd) <;>
  cases h6 : containsS (str "requirements") (lowerS gd) ||
      containsS (str "package") (lowerS gd) <;>
    simp [List.find?, h1, h2, h3, h4, h5, h6]

/-- The accumulated `change_types` set contains a type iff some line's first
matching rule emits it. -/
lemma change_types_contains (gd t : Str) :
    (change_types gd).contains t = claimAccumType gd t := by
  unfold change_types claimAccumType
  rw [contains_filterMap]
  simp only [claimFirstSignal_eq]

/-- Claim C2, counterexample: on the one-line diff "+import bugfix" the
source's `elif` chain contributes only `fix` (the fix rule precedes the
added-import rule), so the resolved type is `fix`, while the claim's
independent accumulation also collects `feat` from the added-import rule and
resolves to `feat` by priority. -/
theorem c2_counterexample :
    resolveCommitType (str "+import bugfix") = str "fix" ∧
    claimResolvedType (str "+import bugfix") = str "feat" := by decide

/-- Claim C2 as amended: the resolved commit type equals the result of
accumulating, for every line, only the first matching rule of the ordered rule
table (added def/class line ⇒ feat; fix/bug mention ⇒ fix; added import line ⇒
feat; test mention ⇒ test; else markdown/readme mention anywhere ⇒ docs; else
dependency-manifest mention anywhere ⇒ chore) and resolving the accumulated
set by the fixed priority feat > fix > test > docs > chore with default
chore. -/
theorem c2_type_resolution_amended (gd : Str) :
    resolveCommitType gd = claimAmendedType gd := by
  simp only [resolveCommitType, claimAmendedType, change_types_contains]

/-- Python's substring test agrees with the infix relation. -/
lemma containsS_spec (n : Str) : ∀ h : Str, containsS n h = true ↔ n <:+: h := by
  intro h
  induction h with
  | nil => simp [containsS, List.isEmpty_iff, List.infix_nil]
  | cons c cs ih =>
    simp only [containsS, Bool.or_eq_true, List.isPrefixOf_iff_prefix, ih]
    rw [List.infix_cons_iff]

/-- Claim C3, counterexample: a diff mentioning both "openai" and
"requirements.txt" takes the earlier openai override, not the dependencies
message. -/
theorem c3_counterexample :
    containsS (str "requirements.txt") (str "openai requirements.txt") = true ∧
    generate_fallback_message (str "openai requirements.txt") =
      str "feat: add AI-powered commit message generation" ∧
    generate_fallback_message (str "openai requirements.txt") ≠
      str "chore: update dependencies" := by decide

/-- Claim C3 as amended: every diff that mentions `requirements.txt` anywhere
and does not mention "openai" (case-insensitively) makes the heuristic
classifier return exactly "chore: update dependencies", regardless of its
added and removed line counts and of any other content. -/
theorem c3_requirements_override_amended (gd : Str)
    (hreq : containsS (str "requirements.txt") gd = true)
    (hopenai : containsS (str "openai") (lowerS gd) = false) :
    generate_fallback_message gd = str "chore: update dependencies" := by
  have h1 : str "requirements" <:+: gd := by
    have h2 := (containsS_spec _ _).mp hreq
    have h3 : str "requirements" <+: str "requirements.txt" := ⟨str ".txt", by decide⟩
    exact h3.isInfix.trans h2
  have h4 : containsS (str "requirements") (lowerS gd) = true := by
    rw [containsS_spec]
    have h5 := h1.map Char.toLower
    have h6 : List.map Char.toLower (str "requirements") = str "requirements" := by decide
    rw [h6] at h5
    exact h5
  simp only [generate_fallback_message, hopenai, h4]
  simp

/-- Witness for the amended claim C3, at the concrete diff
"requirements.txt". -/
theorem c3_requirements_override_witness :
    containsS (str "requirements.txt") (str "requirements.txt") = true ∧
    containsS (str "openai") (lowerS (str "requirements.txt")) = false ∧
    generate_fallback_message (str "requirements.txt") = str "chore: update dependencies" :=
  ⟨by decide, by decide, c3_requirements_override_amended _ (by decide) (by decide)⟩

/-- Splitting on newlines always yields at least one line. -/
lemma splitNl_ne_nil (s : Str) : splitNl s ≠ [] := by
  cases s with
  | nil => simp [splitNl]
  | cons c cs =>
    unfold splitNl
    by_cases h : c = '\n'
    · simp [h]
    · simp only [if_neg h]
      cases splitNl cs <;> simp

/-- Scanning the empty line list yields nothing. -/
lemma scanLines_nil : scanLines [] = none := rfl

/-- One scanning step. -/
lemma scanLines_cons (l : Str) (ls : List Str) :
    scanLines (l :: ls) =
      if validLine (cleanLine l) then some (cleanLine l) else scanLines ls := by
  unfold scanLines
  rw [List.map_cons]
  cases h : validLine (cleanLine l) <;> simp [List.find?, h]

/-- The source's scanning loop equals the `find?` formulation. -/
lemma findValidLine_eq_scan : ∀ ls : List Str, findValidLine ls = scanLines ls := by
  intro ls
  induction ls with
  | nil => rfl
  | cons l t ih =>
    rw [scanLines_cons]
    unfold findValidLine
    rw [ih]

/-- Cleaning ignores a leading strippable whitespace character. -/
lemma cleanLine_cons_ws (c : Char) (l : Str) (h : isWsChar c = true) :
    cleanLine (c :: l) = cleanLine l := by
  unfold cleanLine pyStrip pyStripWith
  rw [List.dropWhile_cons, if_pos h]

/-- A leading strippable whitespace character does not change the scan of the
split lines. -/
lemma scan_splitNl_cons_ws (c : Char) (cs : Str) (h : isWsChar c = true) :
    scanLines (splitNl (c :: cs)) = scanLines (splitNl cs) := by
  by_cases hnl : c = '\n'
  · subst hnl
    have h1 : splitNl ('\n' :: cs) = [] :: splitNl cs := by simp [splitNl]
    rw [h1, scanLines_cons]
    rw [if_neg (by decide)]
  · cases hs : splitNl cs with
    | nil => exact absurd hs (splitNl_ne_nil cs)
    | cons l ls =>
      have h1 : splitNl (c :: cs) = (c :: l) :: ls := by
        unfold splitNl
        rw [if_neg hnl, hs]
      rw [h1, scanLines_cons, scanLines_cons, cleanLine_cons_ws c l h]

/-- Dropping leading whitespace does not change the scan of the split lines. -/
lemma scan_dropWhileWs : ∀ s : Str,
    scanLines (splitNl (s.dropWhile isWsChar)) = scanLines (splitNl s) := by
  intro s
  induction s with
  | nil => rfl
  | cons c cs ih =>
    rw [List.dropWhile_cons]
    by_cases h : isWsChar c = true
    · rw [if_pos h, ih]
      exact (scan_splitNl_cons_ws c cs h).symm
    · rw [if_neg h]

/-- Appending a strippable character is absorbed by `stripEnd`. -/
lemma stripEnd_concat_pos (p : Char → Bool) (xs : Str) (c : Char) (h : p c = true) :
    stripEnd p (xs ++ [c]) = stripEnd p xs := by
  unfold stripEnd
  rw [List.reverse_append]
  simp only [List.reverse_cons, List.reverse_nil, List.nil_append, List.singleton_append]
  rw [List.dropWhile_cons, if_pos h]

/-- Appending a non-strippable character is kept by `stripEnd`. -/
lemma stripEnd_concat_neg (p : Char → Bool) (xs : Str) (c : Char) (h : p c = false) :
    stripEnd p (xs ++ [c]) = xs ++ [c] := by
  unfold stripEnd
  rw [List.reverse_append]
  simp only [List.reverse_cons, List.reverse_nil, List.nil_append, List.singleton_append]
  rw [List.dropWhile_cons, if_neg (by simp [h]), List.reverse_cons, List.reverse_reverse]

/-- Unfolding equation for `splitNl` on a cons cell. -/
lemma splitNl_cons (a : Char) (t : Str) :
    splitNl (a :: t) =
      if a = '\n' then [] :: splitNl t
      else
        match splitNl t with
        | [] => [[a]]
        | l :: ls => (a :: l) :: ls := rfl

/-- Splitting after appending one character. -/
lemma splitNl_concat (c : Char) : ∀ xs : Str,
    splitNl (xs ++ [c]) =
      if c = '\n' then splitNl xs ++ [[]] else appendLast c (splitNl xs) := by
  intro xs
  induction xs with
  | nil =>
    by_cases h : c = '\n'
    · simp [splitNl, h]
    · simp [splitNl, h, appendLast]
  | cons a xs' ih =>
    by_cases ha : a = '\n'
    · subst ha
      have h1 : splitNl (('\n' :: xs') ++ [c]) = [] :: splitNl (xs' ++ [c]) := by
        simp [splitNl]
      have h2 : splitNl ('\n' :: xs') = [] :: splitNl xs' := by simp [splitNl]
      rw [h1, ih, h2]
      by_cases h : c = '\n'
      · simp [h]
      · rw [if_neg h, if_neg h]
        cases hs : splitNl xs' with
        | nil => exact absurd hs (splitNl_ne_nil xs')
        | cons l ls => rfl
    · cases hs : splitNl xs' with
      | nil => exact absurd hs (splitNl_ne_nil xs')
      | cons l ls =>
        have h2 : splitNl (a :: xs') = (a :: l) :: ls := by
          unfold splitNl
          rw [if_neg ha, hs]
        have h1 : splitNl ((a :: xs') ++ [c]) =
            match splitNl (xs' ++ [c]) with
            | [] => [[a]]
            | l :: ls => (a :: l) :: ls := by
          rw [List.cons_append, splitNl_cons, if_neg ha]
        rw [h1, ih, hs, h2]
        by_cases h : c = '\n'
        · rw [if_pos h, if_pos h]
          rfl
        · rw [if_neg h, if_neg h]
          cases ls with
          | nil => rfl
          | cons l' ls' => rfl

/-- Cleaning ignores a trailing strippable whitespace character. -/
lemma cleanLine_concat_ws (l : Str) (c : Char) (h : isWsChar c = true) :
    cleanLine (l ++ [c]) = cleanLine l := by
  unfold cleanLine pyStrip pyStripWith
  rw [List.dropWhile_append]
  by_cases h2 : (l.dropWhile isWsChar).isEmpty = true
  · rw [if_pos h2]
    have h3 : List.dropWhile isWsChar [c] = [] := by
      rw [List.dropWhile_cons, if_pos h]
      rfl
    rw [h3]
    rw [List.isEmpty_iff] at h2
    rw [h2]
  · rw [if_neg h2]
    rw [stripEnd_concat_pos _ _ _ h]

/-- An extra empty last line does not change the scan. -/
lemma scanLines_append_nil (A : List Str) : scanLines (A ++ [[]]) = scanLines A := by
  induction A with
  | nil =>
    rw [List.nil_append, scanLines_cons, scanLines_nil, if_neg (by decide)]
  | cons l t ih =>
    rw [List.cons_append, scanLines_cons, scanLines_cons, ih]

/-- Appending a strippable whitespace character to the last line does not
change the scan. -/
lemma scanLines_appendLast_ws (c : Char) (h : isWsChar c = true) :
    ∀ A : List Str, scanLines (appendLast c A) = scanLines A := by
  intro A
  induction A with
  | nil =>
    show scanLines [[c]] = scanLines []
    rw [scanLines_cons, scanLines_nil]
    have h1 : cleanLine [c] = cleanLine [] := cleanLine_cons_ws c [] h
    rw [h1, if_neg (by decide)]
  | cons l t ih =>
    cases t with
    | nil =>
      show scanLines [l ++ [c]] = scanLines [l]
      rw [scanLines_cons, scanLines_cons, cleanLine_concat_ws l c h]
    | cons l2 t2 =>
      show scanLines (l :: appendLast c (l2 :: t2)) = scanLines (l :: l2 :: t2)
      rw [scanLines_cons, scanLines_cons, ih]

/-- A trailing strippable whitespace character does not change the scan of the
split lines. -/
lemma scan_concat_ws (xs : Str) (c : Char) (h : isWsChar c = true) :
    scanLines (splitNl (xs ++ [c])) = scanLines (splitNl xs) := by
  rw [splitNl_concat]
  by_cases hnl : c = '\n'
  · rw [if_pos hnl, scanLines_append_nil]
  · rw [if_neg hnl, scanLines_appendLast_ws c h]

/-- Dropping trailing whitespace does not change the scan of the split
lines. -/
lemma scan_stripEnd (s : Str) :
    scanLines (splitNl (stripEnd isWsChar s)) = scanLines (splitNl s) := by
  induction s using List.reverseRecOn with
  | nil => rfl
  | append_singleton xs c ih =>
    cases h : isWsChar c with
    | true =>
      rw [stripEnd_concat_pos _ _ _ h, ih]
      exact (scan_concat_ws xs c h).symm
    | false => rw [stripEnd_concat_neg _ _ _ h]

/-- Stripping surrounding whitespace does not change the scan of the split
lines. -/
lemma scan_pyStrip (s : Str) : scanLines (splitNl (pyStrip s)) = scanLines (splitNl s) := by
  unfold pyStrip pyStripWith
  rw [scan_stripEnd, scan_dropWhileWs]

/-- Claim C7: the source's output validation returns exactly the first cleaned
line that contains a colon, whose prefix before the colon is a valid type
case-insensitively, and whose length is at most 72 — and the output
"this change fixes bug #4" is rejected on every line. -/
theorem c7_validation_rule :
    (∀ raw : Str, extractCommitMessage raw = claimValidate raw) ∧
    extractCommitMessage (str "this change fixes bug #4") = none := by
  refine ⟨?_, by decide⟩
  intro raw
  show (if pyStrip raw = [] then none else findValidLine (splitNl (pyStrip raw))) =
    scanLines (splitNl raw)
  by_cases h : pyStrip raw = []
  · rw [if_pos h, ← scan_pyStrip raw, h]
    decide
  · rw [if_neg h, findValidLine_eq_scan, scan_pyStrip]

/-- Characters of `stripEnd p s` come from `s`. -/
lemma mem_stripEnd (p : Char → Bool) (s : Str) (c : Char) (h : c ∈ stripEnd p s) : c ∈ s := by
  unfold stripEnd at h
  rw [List.mem_reverse] at h
  have h2 := (List.dropWhile_sublist p).subset h
  rwa [List.mem_reverse] at h2

/-- Characters of `pyStripWith p s` come from `s`. -/
lemma mem_pyStripWith (p : Char → Bool) (s : Str) (c : Char) (h : c ∈ pyStripWith p s) :
    c ∈ s := by
  unfold pyStripWith at h
  exact (List.dropWhile_sublist p).subset (mem_stripEnd p _ c h)

/-- Characters of a cleaned line come from the line. -/
lemma mem_cleanLine (l : Str) (c : Char) (h : c ∈ cleanLine l) : c ∈ l := by
  unfold cleanLine stripQuotes pyStrip at h
  exact mem_pyStripWith _ _ _ (mem_pyStripWith _ _ _ h)

/-- Lines produced by `splitNl` contain no newline character. -/
lemma splitNl_no_nl : ∀ s : Str, ∀ l ∈ splitNl s, '\n' ∉ l := by
  intro s
  induction s with
  | nil =>
    intro l hl
    have : l = [] := by simpa [splitNl] using hl
    simp [this]
  | cons c cs ih =>
    intro l hl
    by_cases hc : c = '\n'
    · subst hc
      rw [show splitNl ('\n' :: cs) = [] :: splitNl cs from by simp [splitNl]] at hl
      rcases List.mem_cons.mp hl with rfl | h2
      · simp
      · exact ih l h2
    · cases hs : splitNl cs with
      | nil => exact absurd hs (splitNl_ne_nil cs)
      | cons t ts =>
        rw [splitNl_cons, if_neg hc, hs] at hl
        rcases List.mem_cons.mp hl with rfl | h2
        · intro hmem
          rcases List.mem_cons.mp hmem with h3 | h3
          · exact hc h3.symm
          · exact ih t (hs ▸ List.mem_cons_self t ts) h3
        · exact ih l (hs ▸ List.mem_cons_of_mem t h2)

/-- A newline-free string splits into itself alone. -/
lemma splitNl_single : ∀ s : Str, '\n' ∉ s → splitNl s = [s] := by
  intro s
  induction s with
  | nil => intro _; rfl
  | cons c cs ih =>
    intro h
    have hc : ¬ c = '\n' := fun hcc => h (hcc ▸ List.mem_cons_self c cs)
    have hcs : splitNl cs = [cs] := ih (fun h2 => h (List.mem_cons_of_mem c h2))
    rw [splitNl_cons, if_neg hc, hcs]

/-- Inversion of a successful scan of the source's loop. -/
lemma findValidLine_some : ∀ (ls : List Str) (m : Str), findValidLine ls = some m →
    ∃ l ∈ ls, cleanLine l = m ∧ validLine m = true := by
  intro ls
  induction ls with
  | nil => intro m h; simp [findValidLine] at h
  | cons l t ih =>
    intro m h
    unfold findValidLine at h
    by_cases hv : validLine (cleanLine l) = true
    · rw [if_pos hv] at h
      obtain rfl : cleanLine l = m := by simpa using h
      exact ⟨l, List.mem_cons_self l t, rfl, hv⟩
    · rw [if_neg hv] at h
      obtain ⟨l2, hl2, hc2, hv2⟩ := ih m h
      exact ⟨l2, List.mem_cons_of_mem l hl2, hc2, hv2⟩

/-- The head of a non-empty `dropWhile` result fails the predicate. -/
lemma head_dropWhile_false (p : Char → Bool) : ∀ (l : Str) (c : Char) (t : Str),
    l.dropWhile p = c :: t → p c = false := by
  intro l
  induction l with
  | nil => intro c t h; simp at h
  | cons a l2 ih =>
    intro c t h
    rw [List.dropWhile_cons] at h
    by_cases ha : p a = true
    · rw [if_pos ha] at h
      exact ih c t h
    · rw [if_neg ha] at h
      obtain ⟨rfl, -⟩ := List.cons.injEq .. ▸ h
      · exact Bool.not_eq_true _ |>.mp ha

/-- The result of `stripEnd` is a prefix of its argument. -/
lemma stripEnd_prefix_self (p : Char → Bool) (x : Str) : stripEnd p x <+: x := by
  unfold stripEnd
  have h : x.reverse.dropWhile p <:+ x.reverse := List.dropWhile_suffix p
  have h2 : (x.reverse.dropWhile p).reverse <+: x.reverse.reverse := List.reverse_prefix.mpr h
  rwa [List.reverse_reverse] at h2

/-- Stripping from the front is idempotent over a previous two-sided strip. -/
lemma dropWhile_pyStripWith (p : Char → Bool) (s : Str) :
    (pyStripWith p s).dropWhile p = pyStripWith p s := by
  unfold pyStripWith
  cases he : stripEnd p (s.dropWhile p) with
  | nil => rfl
  | cons c t =>
    have hp : stripEnd p (s.dropWhile p) <+: s.dropWhile p := stripEnd_prefix_self p _
    rw [he] at hp
    obtain ⟨rest, hrest⟩ := hp
    have hc : p c = false := head_dropWhile_false p s c (t ++ rest) (by rw [← hrest]; simp)
    rw [List.dropWhile_cons, if_neg (by simp [hc])]

/-- Stripping from the end is idempotent. -/
lemma stripEnd_idem (p : Char → Bool) (x : Str) :
    stripEnd p (stripEnd p x) = stripEnd p x := by
  unfold stripEnd
  rw [List.reverse_reverse, List.dropWhile_idempotent]

/-- Python's two-sided strip is idempotent. -/
lemma pyStripWith_idem (p : Char → Bool) (s : Str) :
    pyStripWith p (pyStripWith p s) = pyStripWith p s := by
  conv_lhs => rw [show pyStripWith p (pyStripWith p s) =
    stripEnd p ((pyStripWith p s).dropWhile p) from rfl]
  rw [dropWhile_pyStripWith]
  show stripEnd p (stripEnd p (s.dropWhile p)) = pyStripWith p s
  rw [stripEnd_idem]
  rfl

/-- Characters of the seven valid type names are lowercase ASCII letters. -/
lemma valid_chars_lower : ∀ t ∈ valid_types, ∀ x ∈ t, 97 ≤ x.toNat ∧ x.toNat ≤ 122 := by
  decide

/-- A character whose lowercase form is a lowercase letter is itself an ASCII
letter. -/
lemma char_class_of_toLower (c : Char) (h1 : 97 ≤ (Char.toLower c).toNat)
    (h2 : (Char.toLower c).toNat ≤ 122) :
    (65 ≤ c.toNat ∧ c.toNat ≤ 90) ∨ (97 ≤ c.toNat ∧ c.toNat ≤ 122) := by
  by_cases hu : 65 ≤ c.toNat ∧ c.toNat ≤ 90
  · exact Or.inl hu
  · have heq : Char.toLower c = c := by
      show (if c.toNat ≥ 65 ∧ c.toNat ≤ 90 then Char.ofNat (c.toNat + 32) else c) = c
      rw [if_neg (by omega)]
    rw [heq] at h1 h2
    exact Or.inr ⟨h1, h2⟩

/-- Characters of a string lowering to a valid type name are ASCII letters,
hence neither whitespace, nor quote characters, nor colons. -/
lemma tv_char_props (tv : Str) (h : lowerS tv ∈ valid_types) :
    ∀ c ∈ tv, isWsChar c = false ∧ isQuoteChar c = false ∧ (c == ':') = false := by
  intro c hc
  have hm : Char.toLower c ∈ lowerS tv := List.mem_map_of_mem _ hc
  obtain ⟨h1, h2⟩ := valid_chars_lower _ h _ hm
  have hclass := char_class_of_toLower c h1 h2
  refine ⟨?_, ?_, ?_⟩
  · unfold isWsChar
    simp only [Bool.or_eq_false_iff, decide_eq_false_iff_not]
    omega
  · unfold isQuoteChar
    simp only [Bool.or_eq_false_iff, decide_eq_false_iff_not]
    omega
  · rw [beq_eq_false_iff_ne]
    intro hcol
    subst hcol
    rw [show (':' : Char).toNat = 58 from rfl] at hclass
    omega

/-- A string lowering to a valid type name is non-empty. -/
lemma tv_ne_nil (tv : Str) (h : lowerS tv ∈ valid_types) : tv ≠ [] := by
  intro hnil
  rw [hnil] at h
  revert h
  decide

/-- Decomposition of the three conjuncts of `validLine`. -/
lemma validLine_parts (m : Str) (h : validLine m = true) :
    containsS (str ":") m = true ∧ lowerS (takeUntilColon m) ∈ valid_types ∧
      m.length ≤ 72 := by
  unfold validLine at h
  simp only [Bool.and_eq_true, decide_eq_true_eq] at h
  refine ⟨h.1.1, ?_, h.2⟩
  have h2 := h.1.2
  unfold List.contains at h2
  exact List.elem_iff.mp h2

/-- `takeWhile` of an all-satisfying prefix followed by a failing character. -/
lemma takeWhile_append_cons_neg (q : Char → Bool) (y : Char) (hy : q y = false) :
    ∀ (xs ys : Str), (∀ c ∈ xs, q c = true) → (xs ++ y :: ys).takeWhile q = xs := by
  intro xs
  induction xs with
  | nil =>
    intro ys _
    rw [List.nil_append, List.takeWhile_cons_of_neg (by simp [hy])]
  | cons a xs2 ih =>
    intro ys hq
    rw [List.cons_append, List.takeWhile_cons_of_pos (hq a (by simp)),
      ih ys (fun c hc => hq c (by simp [hc]))]

/-- A line containing a colon splits into its pre-colon part, the first colon,
and the remainder. -/
lemma validLine_decomp (m : Str) (hcolon : containsS (str ":") m = true) :
    ∃ rest, m = takeUntilColon m ++ ':' :: rest := by
  have hmem : ':' ∈ m := by
    obtain ⟨s1, t1, hst⟩ := (containsS_spec _ _).mp hcolon
    rw [← hst, show (str ":") = [':'] from rfl]
    simp
  cases hd : m.dropWhile (fun c => !(c == ':')) with
  | nil =>
    exfalso
    have hsplit := List.takeWhile_append_dropWhile (fun c => !(c == ':')) m
    rw [hd, List.append_nil] at hsplit
    rw [← hsplit] at hmem
    have h3 := List.mem_takeWhile_imp hmem
    simp at h3
  | cons c t =>
    have hc : (fun c => !(c == ':')) c = false := head_dropWhile_false _ m c t hd
    have hcc : c = ':' := by simpa using hc
    refine ⟨t, ?_⟩
    have hsplit := List.takeWhile_append_dropWhile (fun c => !(c == ':')) m
    rw [hd, hcc] at hsplit
    show m = m.takeWhile (fun c => !(c == ':')) ++ ':' :: t
    exact hsplit.symm

/-- Prepending a surviving character commutes with `stripEnd`. -/
lemma stripEnd_cons_neg (p : Char → Bool) (c : Char) (ys : Str) (hc : p c = false) :
    stripEnd p (c :: ys) = c :: stripEnd p ys := by
  unfold stripEnd
  rw [List.reverse_cons, List.dropWhile_append]
  by_cases h2 : (ys.reverse.dropWhile p).isEmpty = true
  · rw [if_pos h2]
    rw [List.isEmpty_iff] at h2
    rw [h2, show List.dropWhile p [c] = [c] from by
      rw [List.dropWhile_cons, if_neg (by simp [hc])]]
    simp
  · rw [if_neg h2, List.reverse_append]
    simp

/-- Prepending any characters commutes with `stripEnd` when the suffix does
not strip to nothing. -/
lemma stripEnd_append_of_ne (p : Char → Bool) (xs ys : Str) (h : stripEnd p ys ≠ []) :
    stripEnd p (xs ++ ys) = xs ++ stripEnd p ys := by
  unfold stripEnd at h ⊢
  rw [List.reverse_append, List.dropWhile_append]
  have hne : (List.dropWhile p ys.reverse).isEmpty = false := by
    cases hd : List.dropWhile p ys.reverse with
    | nil => exact absurd (by rw [hd]; rfl) h
    | cons a t => rfl
  rw [if_neg (by rw [hne]; simp), List.reverse_append, List.reverse_reverse]

/-- Stripping the end never lengthens a string. -/
lemma length_stripEnd_le (p : Char → Bool) (s : Str) :
    (stripEnd p s).length ≤ s.length := by
  unfold stripEnd
  rw [List.length_reverse]
  calc (s.reverse.dropWhile p).length ≤ s.reverse.length := (List.dropWhile_sublist p).length_le
    _ = s.length := List.length_reverse s

/-- Core of the amended idempotence: an accepted (cleaned) line still has a
non-empty whitespace-strip, and remains acceptable after a further clean. -/
lemma valid_struct (m : Str) (h : validLine m = true) :
    pyStrip m ≠ [] ∧ validLine (cleanLine m) = true := by
  obtain ⟨hcolon, htype, hlen⟩ := validLine_parts m h
  obtain ⟨rest, hm⟩ := validLine_decomp m hcolon
  have hchars := tv_char_props (takeUntilColon m) htype
  have htvne : takeUntilColon m ≠ [] := tv_ne_nil (takeUntilColon m) htype
  cases htvc : takeUntilColon m with
  | nil => exact absurd htvc htvne
  | cons a tv2 =>
    rw [htvc] at hm hchars
    have ha := hchars a (List.mem_cons_self a tv2)
    have hd1 : m.dropWhile isWsChar = m := by
      conv_lhs => rw [hm]
      rw [List.cons_append, List.dropWhile_cons, if_neg (by simp [ha.1]), ← List.cons_append,
        ← hm]
    have hs1 : stripEnd isWsChar (':' :: rest) = ':' :: stripEnd isWsChar rest :=
      stripEnd_cons_neg _ _ _ (by decide)
    have hps : pyStrip m = (a :: tv2) ++ ':' :: stripEnd isWsChar rest := by
      show stripEnd isWsChar (m.dropWhile isWsChar) = _
      rw [hd1]
      conv_lhs => rw [hm]
      rw [stripEnd_append_of_ne _ _ _ (by rw [hs1]; simp), hs1]
    have hq1 : ((a :: tv2) ++ ':' :: stripEnd isWsChar rest).dropWhile isQuoteChar =
        (a :: tv2) ++ ':' :: stripEnd isWsChar rest := by
      rw [List.cons_append, List.dropWhile_cons, if_neg (by simp [ha.2.1])]
    have hs2 : stripEnd isQuoteChar (':' :: stripEnd isWsChar rest) =
        ':' :: stripEnd isQuoteChar (stripEnd isWsChar rest) :=
      stripEnd_cons_neg _ _ _ (by decide)
    have hcl : cleanLine m =
        (a :: tv2) ++ ':' :: stripEnd isQuoteChar (stripEnd isWsChar rest) := by
      show stripEnd isQuoteChar ((pyStrip m).dropWhile isQuoteChar) = _
      rw [hps, hq1, stripEnd_append_of_ne _ _ _ (by rw [hs2]; simp), hs2]
    refine ⟨by rw [hps]; simp, ?_⟩
    rw [hcl]
    have hc2 : takeUntilColon
        ((a :: tv2) ++ ':' :: stripEnd isQuoteChar (stripEnd isWsChar rest)) = a :: tv2 := by
      show ((a :: tv2) ++ ':' :: _).takeWhile (fun c => !(c == ':')) = a :: tv2
      exact takeWhile_append_cons_neg _ ':' (by decide) _ _
        (fun c hc => by simp [(hchars c hc).2.2])
    have hc1 : containsS (str ":")
        ((a :: tv2) ++ ':' :: stripEnd isQuoteChar (stripEnd isWsChar rest)) = true := by
      rw [containsS_spec]
      refine ⟨a :: tv2, stripEnd isQuoteChar (stripEnd isWsChar rest), ?_⟩
      rw [show (str ":") = [':'] from rfl]
      simp
    have hc3 : ((a :: tv2) ++ ':' :: stripEnd isQuoteChar (stripEnd isWsChar rest)).length
        ≤ 72 := by
      have hlm : m.length = (a :: tv2).length + 1 + rest.length := by
        rw [hm]
        simp [List.length_append]
        omega
      have hle1 := length_stripEnd_le isQuoteChar (stripEnd isWsChar rest)
      have hle2 := length_stripEnd_le isWsChar rest
      simp only [List.length_append, List.length_cons]
      simp only [List.length_append, List.length_cons] at hlm
      omega
    unfold validLine
    rw [hc2]
    simp only [Bool.and_eq_true, decide_eq_true_eq]
    refine ⟨⟨hc1, ?_⟩, hc3⟩
    rw [← htvc]
    unfold List.contains
    exact List.elem_iff.mpr htype

/-- Claim C8, counterexample: on the raw output consisting of the single line
with text feat-colon-fix followed by a space and a double quote, validation
accepts and returns the cleaned line ending in a space (the quote is stripped
after the whitespace pass); re-validating that message accepts but returns the
further-cleaned message without the trailing space, not the message itself. -/
theorem c8_counterexample :
    extractCommitMessage (str "feat: fix \"") = some (str "feat: fix ") ∧
    extractCommitMessage (str "feat: fix ") ≠ some (str "feat: fix ") := by decide

/-- Claim C8 as amended: if validation accepts raw output and returns the
cleaned message m, then validating m accepts again and returns the cleaned
form of m — which can differ from m itself when cleaning m strips characters
exposed by the first cleaning (e.g. whitespace uncovered by quote removal). -/
theorem c8_validation_idempotence_amended (raw m : Str)
    (h : extractCommitMessage raw = some m) :
    extractCommitMessage m = some (cleanLine m) := by
  have h0 : pyStrip raw ≠ [] ∧ findValidLine (splitNl (pyStrip raw)) = some m := by
    by_cases hz : pyStrip raw = []
    · exfalso
      have hnone : extractCommitMessage raw = none := by
        show (if pyStrip raw = [] then none else findValidLine (splitNl (pyStrip raw))) = none
        rw [if_pos hz]
      rw [hnone] at h
      exact Option.noConfusion h
    · refine ⟨hz, ?_⟩
      have heq : extractCommitMessage raw = findValidLine (splitNl (pyStrip raw)) := by
        show (if pyStrip raw = [] then none else findValidLine (splitNl (pyStrip raw))) = _
        rw [if_neg hz]
      rw [← heq, h]
  obtain ⟨l, hl, hclean, hval⟩ := findValidLine_some _ _ h0.2
  have hnl_l : '\n' ∉ l := splitNl_no_nl _ _ hl
  have hnl_m : '\n' ∉ m := fun hc => hnl_l (mem_cleanLine l _ (by rw [hclean]; exact hc))
  obtain ⟨hpne, hvc⟩ := valid_struct m hval
  have hnl_ps : '\n' ∉ pyStrip m := fun hc => hnl_m (mem_pyStripWith _ _ _ hc)
  have hsingle : splitNl (pyStrip m) = [pyStrip m] := splitNl_single _ hnl_ps
  have hclps : cleanLine (pyStrip m) = cleanLine m := by
    show stripQuotes (pyStrip (pyStrip m)) = cleanLine m
    rw [show pyStrip (pyStrip m) = pyStrip m from pyStripWith_idem isWsChar m]
    rfl
  show (if pyStrip m = [] then none else findValidLine (splitNl (pyStrip m))) = _
  rw [if_neg hpne, hsingle]
  show (if validLine (cleanLine (pyStrip m)) then some (cleanLine (pyStrip m))
    else findValidLine []) = _
  rw [hclps, if_pos hvc]

/-- Witness for the amended claim C8, at the concrete raw output used by the
counterexample. -/
theorem c8_validation_idempotence_witness :
    extractCommitMessage (str "feat: fix \"") = some (str "feat: fix ") ∧
    extractCommitMessage (str "feat: fix ") = some (cleanLine (str "feat: fix ")) :=
  ⟨by decide, c8_validation_idempotence_amended (str "feat: fix \"") (str "feat: fix ")
    (by decide)⟩
